import Mathlib

/-!
Verification development for the txt2img-stable-diffusion denoising backbone.

The definitions below are a shallow embedding of the repository's source:

* `src/models/unet.py` — the conditional UNet (encoder / bottleneck / decoder,
  skip-connection stack, residual blocks, spatial transformer wrapper,
  downsample / upsample units, time embedding, configuration toggles).
  Tensor-level computations are embedded at the shape level: a tensor is its
  shape, and each module is a function `TShape → Option TShape` that returns
  `none` exactly when the corresponding PyTorch call would raise (channel
  mismatch in a convolution or group norm, an invalid output size, an
  impossible in-place broadcast, a `torch.cat` disagreement, a pop from an
  empty Python list, or a keyword argument passed to `nn.Identity`).
* `src/models/activation_fn.py` — the GeGELU gated feed-forward unit,
  embedded at the value level over `ℚ` with the transcendental gating
  nonlinearity kept abstract as a function parameter.
* `src/utils/datasets.py` — `scale_img` (embedded over an explicit heap of
  tensor objects so that in-place mutation and object identity are visible)
  and `create_dataloaders`.

The multi-head attention unit (`src/models/attention.py`) is imported by the
UNet but its source file is not part of the reviewed tree; where it is needed
it is modelled from the specification's contract (section 4.1): it preserves
the token-sequence shape, consumes the conditioning sequence read-only, and
its accelerated code path is numerically equivalent to the reference path.
-/

/-- Shape of a 4-dimensional tensor `(batch, channels, height, width)`. -/
structure TShape where
  b : Nat
  c : Nat
  h : Nat
  w : Nat
deriving DecidableEq, Repr

/-- Shape of a conditioning sequence `(batch, seq_len, cond_dim)`. -/
structure CShape where
  b : Nat
  n : Nat
  d : Nat
deriving DecidableEq, Repr

/-- Shape semantics of `nn.Conv2d(inC, outC, kernel_size=k, stride=s, padding=p)`:
requires the input channel count to match and the padded input to be at least
as large as the kernel; output spatial size is `(x + 2p - k) / s + 1`. -/
def conv2dShape (inC outC k s p : Nat) (x : TShape) : Option TShape :=
  if x.c = inC ∧ k ≤ x.h + 2 * p ∧ k ≤ x.w + 2 * p then
    some ⟨x.b, outC, (x.h + 2 * p - k) / s + 1, (x.w + 2 * p - k) / s + 1⟩
  else none

/-- Shape semantics of `nn.GroupNorm(g, c)`: construction requires `g ∣ c`, and
the forward pass requires the input channel count to equal `c`. -/
def groupNormShape (g c : Nat) (x : TShape) : Option TShape :=
  if c % g = 0 ∧ x.c = c then some x else none

/-- Shape semantics of an in-place addition `dst += src`: `src` must broadcast
into the (unchanged) shape of `dst`. -/
def addInPlace (dst src : TShape) : Option TShape :=
  if (src.b = dst.b ∨ src.b = 1) ∧ (src.c = dst.c ∨ src.c = 1) ∧
     (src.h = dst.h ∨ src.h = 1) ∧ (src.w = dst.w ∨ src.w = 1) then
    some dst
  else none

/-- Shape semantics of `UNet_ResBlock(inC, outC, t_embed_dim=1280).forward`:
groupnorm → silu → 3×3 conv → add the time embedding (a `(tb, outC)` tensor
projected by `Linear(tdim, outC)`, broadcast as `(tb, outC, 1, 1)`, added in
place) → groupnorm → silu → 3×3 conv → add the (possibly 1×1-projected) input.
`tb` is the timestep batch and `td` the feature width of the incoming time
embedding, which `Linear(tdim, outC)` requires to equal `tdim`. -/
def resBlockShape (inC outC tdim tb td : Nat) (x : TShape) : Option TShape := do
  let h1 ← groupNormShape 32 inC x
  let h2 ← conv2dShape inC outC 3 1 1 h1
  let h3 ← if td = tdim then addInPlace h2 ⟨tb, outC, 1, 1⟩ else none
  let h4 ← groupNormShape 32 outC h3
  let h5 ← conv2dShape outC outC 3 1 1 h4
  let xp ← if inC = outC then some x else conv2dShape inC outC 1 1 0 x
  addInPlace h5 xp

/-- Shape semantics of `UNet_TransformerEncoder(heads, embDim, condDim).forward`
with `channels = embDim * heads`: groupnorm → 1×1 conv → flatten to tokens
`(b, h*w, channels)` → transformer block (self-attention, cross-attention to
the conditioning sequence, gated feed-forward; the attention unit is modelled
from the specification as shape-preserving, requiring the conditioning last
dimension to equal `condDim` and its batch to match) → reshape back →
1×1 conv → residual add of the block input. -/
def transformerShape (heads embDim condDim : Nat) (x : TShape) (cond : CShape) :
    Option TShape := do
  let ch := embDim * heads
  let h1 ← groupNormShape 32 ch x
  let h2 ← conv2dShape ch ch 1 1 0 h1
  let _ ← if ch % heads = 0 ∧ cond.d = condDim ∧ cond.b = h2.b then some () else none
  let h3 ← conv2dShape ch ch 1 1 0 h2
  addInPlace h3 x

/-- One layer of an encoder or decoder stage, as built by
`TimeStepSequential(UNet_ResBlock(inC, outC), [UNet_TransformerEncoder])`. -/
structure LayerDesc where
  inC : Nat
  outC : Nat
  withTE : Bool
deriving DecidableEq, Repr

/-- Shape semantics of applying one `TimeStepSequential` layer: the residual
block, then (when present) the spatial transformer whose embedding dimension
is `outC / heads`, exactly as constructed in `UNet_Encoder.__init__` and
`UNet_Decoder.__init__`. -/
def runLayer (heads condDim tdim tb td : Nat) (cond : CShape) (L : LayerDesc)
    (x : TShape) : Option TShape := do
  let x1 ← resBlockShape L.inC L.outC tdim tb td x
  if L.withTE then transformerShape heads (L.outC / heads) condDim x1 cond else some x1

/-- One encoder stage: its two layers, and its downsample (`hasDown = true`
for a strided convolution, `false` for `nn.Identity`). -/
structure EncStage where
  layers : List LayerDesc
  hasDown : Bool
  downC : Nat
deriving DecidableEq, Repr

/-- Stage list built by `UNet_Encoder.__init__` (base width 320): stage `i`
has input width `320 * ([1] + ch_multiplier)[i]` and output width
`320 * ch_multiplier[i]`; every stage except the last carries transformer
blocks and a real downsample, the last stage has residual-only layers and an
identity downsample.  The carried `prevMult` is the previous multiplier. -/
def mkEncoderStagesAux (prevMult : Nat) : List Nat → List EncStage
  | [] => []
  | m :: rest =>
    let isLast := rest.isEmpty
    let inC := 320 * prevMult
    let outC := 320 * m
    { layers := [⟨inC, outC, !isLast⟩, ⟨outC, outC, !isLast⟩],
      hasDown := !isLast, downC := outC } :: mkEncoderStagesAux m rest

/-- Encoder stages for a channel-multiplier schedule. -/
def mkEncoderStages (chMult : List Nat) : List EncStage :=
  mkEncoderStagesAux 1 chMult

/-- One decoder stage: its three layers and its upsample (`hasUp = true` for a
`UNet_Upsample`, `false` for `nn.Identity`). -/
structure DecStage where
  layers : List LayerDesc
  hasUp : Bool
  upC : Nat
deriving DecidableEq, Repr

/-- Stage list built by `UNet_Decoder.__init__` (base width 320), in forward
order `i = n-1, …, 0` over `decoder_channels = ch_multiplier + [4]`: stage `i`
has `in_ch = 320 * decoder_channels[i+1]` (the carried `aboveMult`),
`out_ch = 320 * decoder_channels[i]`, and `mid_ch = 320 * decoder_channels[i-1]`
(or the base width 320 when `i = 0`); the deepest stage (`i = n-1`, first in
forward order) is residual-only, all others carry transformer blocks; every
stage except `i = 0` (last in forward order) has a real upsample. -/
def mkDecoderStagesAux (aboveMult : Nat) (isDeepest : Bool) : List Nat → List DecStage
  | [] => []
  | m :: rest =>
    let inC := 320 * aboveMult
    let outC := 320 * m
    let midC := match rest with
      | [] => 320
      | m2 :: _ => 320 * m2
    let te := !isDeepest
    { layers := [⟨inC + outC, outC, te⟩, ⟨outC + outC, outC, te⟩, ⟨outC + midC, outC, te⟩],
      hasUp := !rest.isEmpty, upC := outC } :: mkDecoderStagesAux m false rest

/-- Decoder stages for a channel-multiplier schedule (the constructor loop
runs over `reversed(range(len(ch_multiplier)))`). -/
def mkDecoderStages (chMult : List Nat) : List DecStage :=
  mkDecoderStagesAux 4 true chMult.reverse

/-- Encoder inner loop (`for layer in down.block`): apply each layer and push
its output onto the skip stack (head of the list is the top of the stack). -/
def runEncLayers (heads condDim tdim tb td : Nat) (cond : CShape) :
    List LayerDesc → TShape → List TShape → Option (TShape × List TShape)
  | [], x, sk => some (x, sk)
  | L :: Ls, x, sk => do
    let x1 ← runLayer heads condDim tdim tb td cond L x
    runEncLayers heads condDim tdim tb td cond Ls x1 (x1 :: sk)

/-- One encoder stage of `UNet_Encoder.forward`: the layers, then the
downsample; the downsample output is pushed exactly when the downsample is not
`nn.Identity`. -/
def runEncStage (heads condDim tdim tb td : Nat) (cond : CShape) (st : EncStage)
    (x : TShape) (sk : List TShape) : Option (TShape × List TShape) := do
  let (x1, sk1) ← runEncLayers heads condDim tdim tb td cond st.layers x sk
  if st.hasDown then do
    let x2 ← conv2dShape st.downC st.downC 3 2 1 x1
    some (x2, x2 :: sk1)
  else
    some (x1, sk1)

/-- Encoder stage loop (`for down in self.down`). -/
def runEncStages (heads condDim tdim tb td : Nat) (cond : CShape) :
    List EncStage → TShape → List TShape → Option (TShape × List TShape)
  | [], x, sk => some (x, sk)
  | st :: rest, x, sk => do
    let (x1, sk1) ← runEncStage heads condDim tdim tb td cond st x sk
    runEncStages heads condDim tdim tb td cond rest x1 sk1

/-- `UNet_Encoder.forward`: `conv_in` (3×3, `inCh → 320`), push its output as
the first skip connection, then run the stages. -/
def runEncoder (inCh heads condDim tdim tb td : Nat) (cond : CShape)
    (stages : List EncStage) (x : TShape) : Option (TShape × List TShape) := do
  let x0 ← conv2dShape inCh 320 3 1 1 x
  runEncStages heads condDim tdim tb td cond stages x0 [x0]

/-- What a decoder stage does after its layers: nearest-neighbour spatial
doubling followed by the 3×3 convolution, the convolution alone
(`upscale=False`), or nothing (`nn.Identity`). -/
inductive UpAction where
  | double
  | convOnly
  | ident
deriving DecidableEq, Repr

/-- Shape semantics of `torch.cat([x, t], dim=1)`: all non-channel dimensions
must agree; channel counts add. -/
def catChannels (x t : TShape) : Option TShape :=
  if t.b = x.b ∧ t.h = x.h ∧ t.w = x.w then some ⟨x.b, x.c + t.c, x.h, x.w⟩ else none

/-- Shape semantics of `F.interpolate(x, scale_factor=2, mode='nearest')`. -/
def interpolate2 (x : TShape) : Option TShape :=
  if 1 ≤ x.h ∧ 1 ≤ x.w then some ⟨x.b, x.c, 2 * x.h, 2 * x.w⟩ else none

/-- Decoder inner loop (`for layer in up.block`): pop one skip tensor
(`skip_connections.pop()` raises on an empty list), concatenate it
channel-wise with the running activation, apply the layer. -/
def runDecLayers (heads condDim tdim tb td : Nat) (cond : CShape) :
    List LayerDesc → TShape → List TShape → Option (TShape × List TShape)
  | [], x, sk => some (x, sk)
  | L :: Ls, x, sk =>
    match sk with
    | [] => none
    | t :: sk' => do
      let xc ← catChannels x t
      let x1 ← runLayer heads condDim tdim tb td cond L xc
      runDecLayers heads condDim tdim tb td cond Ls x1 sk'

/-- One decoder stage of `UNet_Decoder.forward`: record
`prev_hw = skip_connections[-1].shape[-1]` (raising if the stack is empty),
run the layers (each popping one skip), then
`if skip_connections and skip_connections[-1].shape[-1] == prev_hw` call the
upsample with `upscale=False`, else call it plainly.  Calling `nn.Identity`
with the keyword `upscale` raises, so an identity upsample succeeds only
through the plain branch. -/
def runDecStage (heads condDim tdim tb td : Nat) (cond : CShape) (st : DecStage)
    (x : TShape) (sk : List TShape) : Option (TShape × List TShape × UpAction) := do
  let prevW ← match sk with
    | [] => none
    | t :: _ => some t.w
  let (x1, sk1) ← runDecLayers heads condDim tdim tb td cond st.layers x sk
  let sameW : Bool := match sk1 with
    | [] => false
    | t :: _ => t.w == prevW
  if sameW then
    if st.hasUp then do
      let x2 ← conv2dShape st.upC st.upC 3 1 1 x1
      some (x2, sk1, UpAction.convOnly)
    else none
  else
    if st.hasUp then do
      let xi ← interpolate2 x1
      let x2 ← conv2dShape st.upC st.upC 3 1 1 xi
      some (x2, sk1, UpAction.double)
    else
      some (x1, sk1, UpAction.ident)

/-- Decoder stage loop (`for up in self.up`), recording the upsample action
taken at the end of each stage. -/
def runDecStages (heads condDim tdim tb td : Nat) (cond : CShape) :
    List DecStage → TShape → List TShape → List UpAction →
    Option (TShape × List TShape × List UpAction)
  | [], x, sk, acts => some (x, sk, acts)
  | st :: rest, x, sk, acts => do
    let (x1, sk1, a) ← runDecStage heads condDim tdim tb td cond st x sk
    runDecStages heads condDim tdim tb td cond rest x1 sk1 (acts ++ [a])

/-- `UNet_Decoder.forward`. -/
def runDecoder (heads condDim tdim tb td : Nat) (cond : CShape)
    (stages : List DecStage) (x : TShape) (sk : List TShape) :
    Option (TShape × List TShape × List UpAction) :=
  runDecStages heads condDim tdim tb td cond stages x sk []

/-- `UNet.bottleneck`: `UNet_ResBlock(1280, 1280)`,
`UNet_TransformerEncoder(num_heads=8, embedding_dim=160)`,
`UNet_ResBlock(1280, 1280)`, all with `t_embed_dim = 1280`. -/
def runBottleneck (condDim tb td : Nat) (cond : CShape) (x : TShape) : Option TShape := do
  let x1 ← resBlockShape 1280 1280 1280 tb td x
  let x2 ← transformerShape 8 160 condDim x1 cond
  resBlockShape 1280 1280 1280 tb td x2

/-- `UNet.output`: `GroupNorm(32, 320)`, `SiLU`, `Conv2d(320, outCh, 3, 1, 1)`. -/
def runOutputHead (outCh : Nat) (x : TShape) : Option TShape := do
  let x1 ← groupNormShape 32 320 x
  conv2dShape 320 outCh 3 1 1 x1

/-- `UNet.forward` for the default configuration built by `UNet.__init__`
(`t_embed_dim = 320`, channel-multiplier schedule `[1, 2, 4, 4]`): the time
embedding maps the `(tb,)` timestep batch to a `(tb, 1280)` tensor, then
encoder → bottleneck → decoder (fed the encoder's skip stack) → output head. -/
def unetForward (inCh outCh heads condDim : Nat) (x : TShape) (tb : Nat)
    (cond : CShape) : Option TShape := do
  let td := 1280
  let (x1, sk) ← runEncoder inCh heads condDim 1280 tb td cond
    (mkEncoderStages [1, 2, 4, 4]) x
  let x2 ← runBottleneck condDim tb td cond x1
  let (x3, _sk2, _acts) ← runDecoder heads condDim 1280 tb td cond
    (mkDecoderStages [1, 2, 4, 4]) x2 sk
  runOutputHead outCh x3

/-- Number of skip-stack pushes performed by `UNet_Encoder.forward`: one for
`conv_in`, one per layer of every stage, and one per real downsample. -/
def encPushes (stages : List EncStage) : Nat :=
  1 + (stages.map (fun st => st.layers.length + if st.hasDown then 1 else 0)).sum

/-- Number of skip-stack pops performed by `UNet_Decoder.forward`: one per
layer of every stage. -/
def decPops (stages : List DecStage) : Nat :=
  (stages.map (fun st => st.layers.length)).sum

/-- Stack discipline of `UNet_Decoder.forward`, abstracted to the stack size
`k`: every stage first peeks at the top entry (raising when the stack is
empty) and then pops one entry per layer; returns the remaining size. -/
def decStackUse : List DecStage → Nat → Option Nat
  | [], k => some k
  | st :: rest, k =>
    if k = 0 then none
    else if st.layers.length ≤ k then decStackUse rest (k - st.layers.length)
    else none

/-- The skip stack produced by the default-configuration encoder on an input
of shape `(b, 4, 8*m₁, 8*m₂)`, top of the stack first. -/
def pairedSkips (b m₁ m₂ : Nat) : List TShape :=
  [⟨b, 1280, m₁, m₂⟩, ⟨b, 1280, m₁, m₂⟩, ⟨b, 1280, m₁, m₂⟩,
   ⟨b, 1280, 2 * m₁, 2 * m₂⟩, ⟨b, 1280, 2 * m₁, 2 * m₂⟩, ⟨b, 640, 2 * m₁, 2 * m₂⟩,
   ⟨b, 640, 4 * m₁, 4 * m₂⟩, ⟨b, 640, 4 * m₁, 4 * m₂⟩, ⟨b, 320, 4 * m₁, 4 * m₂⟩,
   ⟨b, 320, 8 * m₁, 8 * m₂⟩, ⟨b, 320, 8 * m₁, 8 * m₂⟩, ⟨b, 320, 8 * m₁, 8 * m₂⟩]

/-- Dot product of two rational vectors. -/
def dotQ (u v : List ℚ) : ℚ := (List.zipWith (· * ·) u v).sum

/-- Value semantics of `nn.Linear`: one output coordinate per weight row. -/
def linearQ (W : List (List ℚ)) (bv : List ℚ) (x : List ℚ) : List ℚ :=
  List.zipWith (fun wr bi => dotQ wr x + bi) W bv

/-- Value semantics of `tensor.chunk(2, dim=-1)`: the first chunk takes
`⌈n/2⌉` entries, the second the rest. -/
def chunk2 (l : List ℚ) : List ℚ × List ℚ :=
  (l.take ((l.length + 1) / 2), l.drop ((l.length + 1) / 2))

/-- Value semantics of `GeGELU(in_channels, out_channels).forward` from
`src/models/activation_fn.py`: project with `Linear(in_channels,
out_channels * 2)`, chunk the projection into a value half and a gate half,
apply the gating nonlinearity `g` (GELU, kept abstract) to the gate half, and
multiply elementwise. -/
def geGELUForward (g : ℚ → ℚ) (W : List (List ℚ)) (bv : List ℚ) (x : List ℚ) :
    List ℚ :=
  let p := linearQ W bv x
  let pr := chunk2 p
  List.zipWith (· * ·) pr.1 (pr.2.map g)

/-- Value semantics of `UNet_AttentionBlock.ffn`:
`GeGELU(dim, dim * 4)` followed by `Linear(dim * 4, dim)`. -/
def geGELUFfn (g : ℚ → ℚ) (W1 : List (List ℚ)) (b1 : List ℚ)
    (W2 : List (List ℚ)) (b2 : List ℚ) (x : List ℚ) : List ℚ :=
  linearQ W2 b2 (geGELUForward g W1 b1 x)

/-- `UNet_AttentionBlock.__init__`: Python evaluates
`embedding_dim % num_heads` (raising `ZeroDivisionError` when the head count
is zero) and raises a `ValueError` when the remainder is nonzero; otherwise
construction succeeds with `head_dim = embedding_dim // num_heads`. -/
def unetAttentionBlockInit (numHeads embeddingDim : Nat) : Except String Nat :=
  if numHeads = 0 then Except.error "ZeroDivisionError"
  else if embeddingDim % numHeads ≠ 0 then
    Except.error "Number of heads must be divisible by Embedding Dimension"
  else Except.ok (embeddingDim / numHeads)

/-- Frequencies of `TimeEmbedding._get_time_embedding`:
`torch.pow(10000, -torch.arange(0, half) / half)` with `half = tdim // 2`. -/
noncomputable def timeFreq (tdim i : Nat) : ℝ :=
  (10000 : ℝ) ^ (-(i : ℝ) / ((tdim / 2 : Nat) : ℝ))

/-- One row (one batch element, integer timestep `t`) of
`TimeEmbedding._get_time_embedding`: the cosine block followed by the sine
block, `torch.cat([torch.cos(x), torch.sin(x)], dim=-1)` with
`x = timestep * freqs`. -/
noncomputable def timeEmbeddingRow (tdim : Nat) (t : ℤ) : List ℝ :=
  ((List.range (tdim / 2)).map fun i => Real.cos ((t : ℝ) * timeFreq tdim i)) ++
  ((List.range (tdim / 2)).map fun i => Real.sin ((t : ℝ) * timeFreq tdim i))

/-- Configuration state touched by the two `UNet` toggles: the
`gradient_checkpointing` flag of every `UNet_AttentionBlock` and the
`use_flash_attention` flag of every `MultiheadSelfAttention`, grouped by the
three submodules the toggles walk (encoder, bottleneck, decoder). -/
structure UNetToggles where
  encGC : List Bool
  botGC : List Bool
  decGC : List Bool
  encFA : List Bool
  botFA : List Bool
  decFA : List Bool
deriving DecidableEq, Repr

/-- `UNet.gradient_checkpointing_enabled(enabled)`: set the
`gradient_checkpointing` flag of every attention block found under the
encoder, the bottleneck and the decoder to `enabled`. -/
def gradientCheckpointingEnabled (s : UNetToggles) (enabled : Bool) : UNetToggles :=
  { s with
    encGC := s.encGC.map fun _ => enabled,
    botGC := s.botGC.map fun _ => enabled,
    decGC := s.decGC.map fun _ => enabled }

/-- `UNet.enable_flash_attn()`: set the `use_flash_attention` flag of every
attention unit found under the encoder, the bottleneck and the decoder. -/
def enableFlashAttn (s : UNetToggles) : UNetToggles :=
  { s with
    encFA := s.encFA.map fun _ => true,
    botFA := s.botFA.map fun _ => true,
    decFA := s.decFA.map fun _ => true }

/-- Forward semantics of `torch.utils.checkpoint.checkpoint(f, x,
use_reentrant=False)`: during the forward pass it simply computes `f x`
(only the backward-pass memory behaviour differs). -/
def checkpointRun {α β : Type} (f : α → β) (x : α) : β := f x

/-- Value semantics of `UNet_AttentionBlock.forward` with abstract sub-module
functions: layernorm → self-attention (checkpointed when the flag is set) →
residual add → layernorm → cross-attention (checkpointed when the flag is
set) → residual add → layernorm → feed-forward → residual add. -/
def attnBlockForward {T C : Type} (gc : Bool) (norm1 : T → T) (attn1 : T → T)
    (norm2 : T → T) (attn2 : T → C → T) (norm3 : T → T) (ffn : T → T)
    (add : T → T → T) (x : T) (cond : C) : T :=
  let x1 := norm1 x
  let x2 := if gc then checkpointRun attn1 x1 else attn1 x1
  let x3 := add x2 x
  let x4 := norm2 x3
  let x5 := if gc then checkpointRun (fun p => attn2 p cond) x4 else attn2 x4 cond
  let x6 := add x5 x3
  let x7 := norm3 x6
  let x8 := ffn x7
  add x8 x6

/-- Modelled from the spec: `MultiheadSelfAttention.forward`
(`src/models/attention.py` is not part of the reviewed tree).  Section 4.1
requires the accelerated attention code path to be numerically equivalent to
the reference computation, so both settings of `use_flash_attention` compute
the same reference function. -/
def selfAttentionForward {T : Type} (useFlash : Bool) (reference : T → T)
    (x : T) : T :=
  if useFlash then reference x else reference x

/-- The affine map applied by `scale_img`:
`(v - old_min) * (new_max - new_min) / (old_max - old_min) + new_min`. -/
def rescaleVal (oldMin oldMax newMin newMax v : ℚ) : ℚ :=
  (v - oldMin) * ((newMax - newMin) / (oldMax - oldMin)) + newMin

/-- Value semantics of `torch.clamp(v, lo, hi)`. -/
def clampVal (lo hi v : ℚ) : ℚ := min (max v lo) hi

/-- `scale_img` from `src/utils/datasets.py`, over an explicit heap of tensor
objects (a list of value vectors, a tensor reference being an index): the
in-place operators `-=`, `*=`, `+=` overwrite the referenced cell, and with
`clamp=False` the function returns the input reference itself; with
`clamp=True`, `torch.clamp` allocates a fresh tensor, which is appended to
the heap and returned instead. -/
def scaleImg (heap : List (List ℚ)) (r : Nat) (oldMin oldMax newMin newMax : ℚ)
    (clamp : Bool) : List (List ℚ) × Nat :=
  let t := (heap.getD r []).map (rescaleVal oldMin oldMax newMin newMax)
  let heap1 := heap.set r t
  if clamp then (heap1 ++ [t.map (clampVal newMin newMax)], heap1.length)
  else (heap1, r)

/-- The two fields of a `torch.utils.data.DataLoader` that
`create_dataloaders` sets besides the worker count: the wrapped dataset
(modelled by the list of indices of the underlying `DreamboothDataset` it
iterates over) and the shuffle flag. -/
structure DataLoaderM where
  dataset : List Nat
  batchSize : Nat
  shuffle : Bool
  numWorkers : Nat
deriving DecidableEq, Repr

/-- `train_size = int(train_test_split * len(dataset))` (for the nonnegative
fractions accepted by `random_split`, `int` truncation is the floor). -/
def trainSizeOf (split : ℚ) (n : Nat) : Nat := (Int.floor (split * n)).toNat

/-- `create_dataloaders` from `src/utils/datasets.py`.  `perm` is the random
permutation of dataset indices drawn by `torch.utils.data.random_split`,
which splits it into a training subset of the first `train_size` indices and
a test subset of the rest, and raises when the requested lengths do not sum
to the dataset size.  Both returned loaders wrap `train_dataset` (lines
116–117): the first with `shuffle=True`, the second with `shuffle=False`. -/
def createDataloaders (perm : List Nat) (split : ℚ) (batchSize numWorkers : Nat) :
    Option (DataLoaderM × DataLoaderM) :=
  let n := perm.length
  let ts : Int := Int.floor (split * n)
  if 0 ≤ ts ∧ ts.toNat ≤ n then
    let trainSubset := perm.take ts.toNat
    some (⟨trainSubset, batchSize, true, numWorkers⟩,
          ⟨trainSubset, batchSize, false, numWorkers⟩)
  else none

/-! ### Pointwise rewrite lemmas for the shape semantics -/

theorem conv3s1_eq (inC outC b c h w : Nat) (hc : c = inC) (hh : 1 ≤ h) (hw : 1 ≤ w) :
    conv2dShape inC outC 3 1 1 ⟨b, c, h, w⟩ = some ⟨b, outC, h, w⟩ := by
  have p1 : 3 ≤ h + 2 * 1 := by omega
  have p2 : 3 ≤ w + 2 * 1 := by omega
  simp [conv2dShape, hc, p1, p2]
  omega

theorem conv1s1_eq (inC outC b c h w : Nat) (hc : c = inC) (hh : 1 ≤ h) (hw : 1 ≤ w) :
    conv2dShape inC outC 1 1 0 ⟨b, c, h, w⟩ = some ⟨b, outC, h, w⟩ := by
  have p1 : 1 ≤ h + 2 * 0 := by omega
  have p2 : 1 ≤ w + 2 * 0 := by omega
  simp [conv2dShape, hc, p1, p2]
  omega

theorem conv3s2_eq (inC outC b c h w h2 w2 : Nat) (hc : c = inC)
    (hh : h = 2 * h2) (hw : w = 2 * w2) (hh2 : 1 ≤ h2) (hw2 : 1 ≤ w2) :
    conv2dShape inC outC 3 2 1 ⟨b, c, h, w⟩ = some ⟨b, outC, h2, w2⟩ := by
  subst hh hw
  have p1 : 3 ≤ 2 * h2 + 2 * 1 := by omega
  have p2 : 3 ≤ 2 * w2 + 2 * 1 := by omega
  simp [conv2dShape, hc, p1, p2]
  omega

theorem addInPlace_self_eq (b c h w : Nat) :
    addInPlace ⟨b, c, h, w⟩ ⟨b, c, h, w⟩ = some ⟨b, c, h, w⟩ := by
  simp [addInPlace]

theorem addInPlace_time_eq (b c h w tb : Nat) (htb : tb = b ∨ tb = 1) :
    addInPlace ⟨b, c, h, w⟩ ⟨tb, c, 1, 1⟩ = some ⟨b, c, h, w⟩ := by
  unfold addInPlace
  rw [if_pos]
  exact ⟨htb, Or.inl rfl, Or.inr rfl, Or.inr rfl⟩

theorem groupNorm_eq (g cc b c h w : Nat) (hc : c = cc) (hg : cc % g = 0) :
    groupNormShape g cc ⟨b, c, h, w⟩ = some ⟨b, c, h, w⟩ := by
  simp [groupNormShape, hc, hg]

theorem resBlock_eq (inC outC tb td b c h w : Nat) (hc : c = inC)
    (h32i : inC % 32 = 0) (h32o : outC % 32 = 0) (hh : 1 ≤ h) (hw : 1 ≤ w)
    (htb : tb = b ∨ tb = 1) (htd : td = 1280) :
    resBlockShape inC outC 1280 tb td ⟨b, c, h, w⟩ = some ⟨b, outC, h, w⟩ := by
  subst hc htd
  simp only [resBlockShape, groupNorm_eq 32 c b c h w rfl h32i,
    conv3s1_eq c outC b c h w rfl hh hw, Option.bind_eq_bind', Option.some_bind,
    eq_self_iff_true, if_true,
    addInPlace_time_eq b outC h w tb htb,
    groupNorm_eq 32 outC b outC h w rfl h32o,
    conv3s1_eq outC outC b outC h w rfl hh hw]
  by_cases hio : c = outC
  · subst hio
    rw [if_pos rfl]
    exact addInPlace_self_eq b c h w
  · rw [if_neg hio, conv1s1_eq c outC b c h w rfl hh hw, Option.some_bind]
    exact addInPlace_self_eq b outC h w

theorem transformer_eq (heads embDim condDim b c h w bc nc : Nat)
    (hc : c = embDim * heads) (h32 : (embDim * heads) % 32 = 0)
    (hh : 1 ≤ h) (hw : 1 ≤ w) (hb : bc = b) :
    transformerShape heads embDim condDim ⟨b, c, h, w⟩ ⟨bc, nc, condDim⟩ =
      some ⟨b, c, h, w⟩ := by
  subst hc
  simp only [transformerShape,
    groupNorm_eq 32 (embDim * heads) b (embDim * heads) h w rfl h32,
    conv1s1_eq (embDim * heads) (embDim * heads) b (embDim * heads) h w rfl hh hw,
    Option.bind_eq_bind', Option.some_bind]
  rw [if_pos ⟨Nat.mul_mod_left embDim heads, trivial, hb⟩]
  exact addInPlace_self_eq b (embDim * heads) h w

theorem runLayer_eq (heads condDim tb td b c h w inC outC bc nc : Nat) (te : Bool)
    (hc : c = inC) (h32i : inC % 32 = 0) (h32o : outC % 32 = 0)
    (hh : 1 ≤ h) (hw : 1 ≤ w) (htb : tb = b ∨ tb = 1) (htd : td = 1280)
    (hdv : outC / heads * heads = outC) (hb : bc = b) :
    runLayer heads condDim 1280 tb td ⟨bc, nc, condDim⟩ ⟨inC, outC, te⟩ ⟨b, c, h, w⟩ =
      some ⟨b, outC, h, w⟩ := by
  have h32' : outC / heads * heads % 32 = 0 := by rw [hdv]; exact h32o
  cases te with
  | false =>
    simp only [runLayer, resBlock_eq inC outC tb td b c h w hc h32i h32o hh hw htb htd,
      Option.bind_eq_bind', Option.some_bind]
    simp
  | true =>
    simp only [runLayer, resBlock_eq inC outC tb td b c h w hc h32i h32o hh hw htb htd,
      Option.bind_eq_bind', Option.some_bind]
    have ht := transformer_eq heads (outC / heads) condDim b outC h w bc nc
      hdv.symm h32' hh hw hb
    simp [ht]

theorem catChannels_eq (b xc c1 h w : Nat) :
    catChannels ⟨b, xc, h, w⟩ ⟨b, c1, h, w⟩ = some ⟨b, xc + c1, h, w⟩ := by
  simp [catChannels]

theorem interpolate2_eq (b c h w : Nat) (hh : 1 ≤ h) (hw : 1 ≤ w) :
    interpolate2 ⟨b, c, h, w⟩ = some ⟨b, c, 2 * h, 2 * w⟩ := by
  simp [interpolate2, hh, hw]

theorem encStage_down_eq (heads condDim tb td b i1 o h w h2 w2 bc nc : Nat)
    (sk : List TShape)
    (h32i : i1 % 32 = 0) (h32o : o % 32 = 0) (hdv : o / heads * heads = o)
    (hh : h = 2 * h2) (hw : w = 2 * w2) (hh2 : 1 ≤ h2) (hw2 : 1 ≤ w2)
    (htb : tb = b ∨ tb = 1) (htd : td = 1280) (hb : bc = b) :
    runEncStage heads condDim 1280 tb td ⟨bc, nc, condDim⟩
      ⟨[⟨i1, o, true⟩, ⟨o, o, true⟩], true, o⟩ ⟨b, i1, h, w⟩ sk =
      some (⟨b, o, h2, w2⟩, ⟨b, o, h2, w2⟩ :: ⟨b, o, h, w⟩ :: ⟨b, o, h, w⟩ :: sk) := by
  have hh1 : 1 ≤ h := by omega
  have hw1 : 1 ≤ w := by omega
  simp only [runEncStage, runEncLayers,
    runLayer_eq heads condDim tb td b i1 h w i1 o bc nc true rfl h32i h32o hh1 hw1 htb htd hdv hb,
    runLayer_eq heads condDim tb td b o h w o o bc nc true rfl h32o h32o hh1 hw1 htb htd hdv hb,
    Option.bind_eq_bind', Option.some_bind]
  rw [if_true, conv3s2_eq o o b o h w h2 w2 rfl hh hw hh2 hw2]
  simp

theorem encStage_last_eq (heads condDim tb td b i1 o h w bc nc : Nat)
    (sk : List TShape)
    (h32i : i1 % 32 = 0) (h32o : o % 32 = 0) (hdv : o / heads * heads = o)
    (hh : 1 ≤ h) (hw : 1 ≤ w)
    (htb : tb = b ∨ tb = 1) (htd : td = 1280) (hb : bc = b) :
    runEncStage heads condDim 1280 tb td ⟨bc, nc, condDim⟩
      ⟨[⟨i1, o, false⟩, ⟨o, o, false⟩], false, o⟩ ⟨b, i1, h, w⟩ sk =
      some (⟨b, o, h, w⟩, ⟨b, o, h, w⟩ :: ⟨b, o, h, w⟩ :: sk) := by
  simp only [runEncStage, runEncLayers,
    runLayer_eq heads condDim tb td b i1 h w i1 o bc nc false rfl h32i h32o hh hw htb htd hdv hb,
    runLayer_eq heads condDim tb td b o h w o o bc nc false rfl h32o h32o hh hw htb htd hdv hb,
    Option.bind_eq_bind', Option.some_bind]
  simp

theorem encoder_default (b m₁ m₂ tb seq : Nat) (hm1 : 1 ≤ m₁) (hm2 : 1 ≤ m₂)
    (htb : tb = b ∨ tb = 1) :
    runEncoder 4 8 768 1280 tb 1280 ⟨b, seq, 768⟩ (mkEncoderStages [1, 2, 4, 4])
      ⟨b, 4, 8 * m₁, 8 * m₂⟩ = some (⟨b, 1280, m₁, m₂⟩, pairedSkips b m₁ m₂) := by
  have hstages : mkEncoderStages [1, 2, 4, 4] =
      [⟨[⟨320, 320, true⟩, ⟨320, 320, true⟩], true, 320⟩,
       ⟨[⟨320, 640, true⟩, ⟨640, 640, true⟩], true, 640⟩,
       ⟨[⟨640, 1280, true⟩, ⟨1280, 1280, true⟩], true, 1280⟩,
       ⟨[⟨1280, 1280, false⟩, ⟨1280, 1280, false⟩], false, 1280⟩] := by decide
  have s1 : ∀ sk, runEncStage 8 768 1280 tb 1280 ⟨b, seq, 768⟩
      ⟨[⟨320, 320, true⟩, ⟨320, 320, true⟩], true, 320⟩ ⟨b, 320, 8 * m₁, 8 * m₂⟩ sk =
      some (⟨b, 320, 4 * m₁, 4 * m₂⟩,
        ⟨b, 320, 4 * m₁, 4 * m₂⟩ :: ⟨b, 320, 8 * m₁, 8 * m₂⟩ :: ⟨b, 320, 8 * m₁, 8 * m₂⟩ :: sk) :=
    fun sk => encStage_down_eq 8 768 tb 1280 b 320 320 (8 * m₁) (8 * m₂) (4 * m₁) (4 * m₂)
      b seq sk (by decide) (by decide) (by decide) (by ring) (by ring) (by omega) (by omega)
      htb rfl rfl
  have s2 : ∀ sk, runEncStage 8 768 1280 tb 1280 ⟨b, seq, 768⟩
      ⟨[⟨320, 640, true⟩, ⟨640, 640, true⟩], true, 640⟩ ⟨b, 320, 4 * m₁, 4 * m₂⟩ sk =
      some (⟨b, 640, 2 * m₁, 2 * m₂⟩,
        ⟨b, 640, 2 * m₁, 2 * m₂⟩ :: ⟨b, 640, 4 * m₁, 4 * m₂⟩ :: ⟨b, 640, 4 * m₁, 4 * m₂⟩ :: sk) :=
    fun sk => encStage_down_eq 8 768 tb 1280 b 320 640 (4 * m₁) (4 * m₂) (2 * m₁) (2 * m₂)
      b seq sk (by decide) (by decide) (by decide) (by ring) (by ring) (by omega) (by omega)
      htb rfl rfl
  have s3 : ∀ sk, runEncStage 8 768 1280 tb 1280 ⟨b, seq, 768⟩
      ⟨[⟨640, 1280, true⟩, ⟨1280, 1280, true⟩], true, 1280⟩ ⟨b, 640, 2 * m₁, 2 * m₂⟩ sk =
      some (⟨b, 1280, m₁, m₂⟩,
        ⟨b, 1280, m₁, m₂⟩ :: ⟨b, 1280, 2 * m₁, 2 * m₂⟩ :: ⟨b, 1280, 2 * m₁, 2 * m₂⟩ :: sk) :=
    fun sk => encStage_down_eq 8 768 tb 1280 b 640 1280 (2 * m₁) (2 * m₂) m₁ m₂
      b seq sk (by decide) (by decide) (by decide) rfl rfl (by omega) (by omega)
      htb rfl rfl
  have s4 : ∀ sk, runEncStage 8 768 1280 tb 1280 ⟨b, seq, 768⟩
      ⟨[⟨1280, 1280, false⟩, ⟨1280, 1280, false⟩], false, 1280⟩ ⟨b, 1280, m₁, m₂⟩ sk =
      some (⟨b, 1280, m₁, m₂⟩, ⟨b, 1280, m₁, m₂⟩ :: ⟨b, 1280, m₁, m₂⟩ :: sk) :=
    fun sk => encStage_last_eq 8 768 tb 1280 b 1280 1280 m₁ m₂ b seq sk
      (by decide) (by decide) (by decide) (by omega) (by omega) htb rfl rfl
  rw [hstages]
  unfold runEncoder
  rw [conv3s1_eq 4 320 b 4 (8 * m₁) (8 * m₂) rfl (by omega) (by omega)]
  simp only [Option.bind_eq_bind', Option.some_bind, runEncStages, s1, s2, s3, s4, pairedSkips]

theorem decStage_double_eq (heads condDim tb td b xc c1 c2 c3 o l1 l2 l3 h w hb2 wb2 bc nc : Nat)
    (te : Bool) (r : TShape) (rs : List TShape)
    (hl1 : l1 = xc + c1) (hl2 : l2 = o + c2) (hl3 : l3 = o + c3)
    (h321 : l1 % 32 = 0) (h322 : l2 % 32 = 0) (h323 : l3 % 32 = 0) (h32o : o % 32 = 0)
    (hdv : o / heads * heads = o)
    (hh : 1 ≤ h) (hw : 1 ≤ w) (hrw : ¬ r.w = w)
    (hh2 : hb2 = 2 * h) (hw2 : wb2 = 2 * w)
    (htb : tb = b ∨ tb = 1) (htd : td = 1280) (hb : bc = b) :
    runDecStage heads condDim 1280 tb td ⟨bc, nc, condDim⟩
      ⟨[⟨l1, o, te⟩, ⟨l2, o, te⟩, ⟨l3, o, te⟩], true, o⟩
      ⟨b, xc, h, w⟩ (⟨b, c1, h, w⟩ :: ⟨b, c2, h, w⟩ :: ⟨b, c3, h, w⟩ :: r :: rs) =
      some (⟨b, o, hb2, wb2⟩, r :: rs, UpAction.double) := by
  subst hl1 hl2 hl3 hh2 hw2
  have hbeq : (r.w == w) = false := by
    simp [hrw]
  simp only [runDecStage, runDecLayers,
    catChannels_eq b xc c1 h w,
    runLayer_eq heads condDim tb td b (xc + c1) h w (xc + c1) o bc nc te rfl h321 h32o hh hw htb htd hdv hb,
    catChannels_eq b o c2 h w,
    runLayer_eq heads condDim tb td b (o + c2) h w (o + c2) o bc nc te rfl h322 h32o hh hw htb htd hdv hb,
    catChannels_eq b o c3 h w,
    runLayer_eq heads condDim tb td b (o + c3) h w (o + c3) o bc nc te rfl h323 h32o hh hw htb htd hdv hb,
    Option.bind_eq_bind', Option.some_bind, hbeq]
  rw [if_neg (by simp)]
  rw [if_true, interpolate2_eq b o h w hh hw,
    Option.some_bind, conv3s1_eq o o b o (2 * h) (2 * w) rfl (by omega) (by omega)]
  simp

theorem decStage_last_eq (heads condDim tb td b xc c1 c2 c3 o l1 l2 l3 h w bc nc : Nat)
    (te : Bool)
    (hl1 : l1 = xc + c1) (hl2 : l2 = o + c2) (hl3 : l3 = o + c3)
    (h321 : l1 % 32 = 0) (h322 : l2 % 32 = 0) (h323 : l3 % 32 = 0) (h32o : o % 32 = 0)
    (hdv : o / heads * heads = o)
    (hh : 1 ≤ h) (hw : 1 ≤ w)
    (htb : tb = b ∨ tb = 1) (htd : td = 1280) (hb : bc = b) :
    runDecStage heads condDim 1280 tb td ⟨bc, nc, condDim⟩
      ⟨[⟨l1, o, te⟩, ⟨l2, o, te⟩, ⟨l3, o, te⟩], false, o⟩
      ⟨b, xc, h, w⟩ [⟨b, c1, h, w⟩, ⟨b, c2, h, w⟩, ⟨b, c3, h, w⟩] =
      some (⟨b, o, h, w⟩, [], UpAction.ident) := by
  subst hl1 hl2 hl3
  simp only [runDecStage, runDecLayers,
    catChannels_eq b xc c1 h w,
    runLayer_eq heads condDim tb td b (xc + c1) h w (xc + c1) o bc nc te rfl h321 h32o hh hw htb htd hdv hb,
    catChannels_eq b o c2 h w,
    runLayer_eq heads condDim tb td b (o + c2) h w (o + c2) o bc nc te rfl h322 h32o hh hw htb htd hdv hb,
    catChannels_eq b o c3 h w,
    runLayer_eq heads condDim tb td b (o + c3) h w (o + c3) o bc nc te rfl h323 h32o hh hw htb htd hdv hb,
    Option.bind_eq_bind', Option.some_bind]
  simp

theorem decoder_default (b m₁ m₂ tb seq : Nat) (hm1 : 1 ≤ m₁) (hm2 : 1 ≤ m₂)
    (htb : tb = b ∨ tb = 1) :
    runDecoder 8 768 1280 tb 1280 ⟨b, seq, 768⟩ (mkDecoderStages [1, 2, 4, 4])
      ⟨b, 1280, m₁, m₂⟩ (pairedSkips b m₁ m₂) =
      some (⟨b, 320, 8 * m₁, 8 * m₂⟩, [],
        [UpAction.double, UpAction.double, UpAction.double, UpAction.ident]) := by
  have hstages : mkDecoderStages [1, 2, 4, 4] =
      [⟨[⟨2560, 1280, false⟩, ⟨2560, 1280, false⟩, ⟨2560, 1280, false⟩], true, 1280⟩,
       ⟨[⟨2560, 1280, true⟩, ⟨2560, 1280, true⟩, ⟨1920, 1280, true⟩], true, 1280⟩,
       ⟨[⟨1920, 640, true⟩, ⟨1280, 640, true⟩, ⟨960, 640, true⟩], true, 640⟩,
       ⟨[⟨960, 320, true⟩, ⟨640, 320, true⟩, ⟨640, 320, true⟩], false, 320⟩] := by decide
  have d1 := decStage_double_eq 8 768 tb 1280 b 1280 1280 1280 1280 1280 2560 2560 2560
    m₁ m₂ (2 * m₁) (2 * m₂) b seq false ⟨b, 1280, 2 * m₁, 2 * m₂⟩
    [⟨b, 1280, 2 * m₁, 2 * m₂⟩, ⟨b, 640, 2 * m₁, 2 * m₂⟩,
     ⟨b, 640, 4 * m₁, 4 * m₂⟩, ⟨b, 640, 4 * m₁, 4 * m₂⟩, ⟨b, 320, 4 * m₁, 4 * m₂⟩,
     ⟨b, 320, 8 * m₁, 8 * m₂⟩, ⟨b, 320, 8 * m₁, 8 * m₂⟩, ⟨b, 320, 8 * m₁, 8 * m₂⟩]
    (by norm_num) (by norm_num) (by norm_num) (by decide) (by decide) (by decide) (by decide)
    (by decide) (by omega) (by omega) (by simp; omega) rfl rfl htb rfl rfl
  have d2 := decStage_double_eq 8 768 tb 1280 b 1280 1280 1280 640 1280 2560 2560 1920
    (2 * m₁) (2 * m₂) (4 * m₁) (4 * m₂) b seq true ⟨b, 640, 4 * m₁, 4 * m₂⟩
    [⟨b, 640, 4 * m₁, 4 * m₂⟩, ⟨b, 320, 4 * m₁, 4 * m₂⟩,
     ⟨b, 320, 8 * m₁, 8 * m₂⟩, ⟨b, 320, 8 * m₁, 8 * m₂⟩, ⟨b, 320, 8 * m₁, 8 * m₂⟩]
    (by norm_num) (by norm_num) (by norm_num) (by decide) (by decide) (by decide) (by decide)
    (by decide) (by omega) (by omega) (by simp; omega) (by ring) (by ring) htb rfl rfl
  have d3 := decStage_double_eq 8 768 tb 1280 b 1280 640 640 320 640 1920 1280 960
    (4 * m₁) (4 * m₂) (8 * m₁) (8 * m₂) b seq true ⟨b, 320, 8 * m₁, 8 * m₂⟩
    [⟨b, 320, 8 * m₁, 8 * m₂⟩, ⟨b, 320, 8 * m₁, 8 * m₂⟩]
    (by norm_num) (by norm_num) (by norm_num) (by decide) (by decide) (by decide) (by decide)
    (by decide) (by omega) (by omega) (by simp; omega) (by ring) (by ring) htb rfl rfl
  have d4 := decStage_last_eq 8 768 tb 1280 b 640 320 320 320 320 960 640 640
    (8 * m₁) (8 * m₂) b seq true
    (by norm_num) (by norm_num) (by norm_num) (by decide) (by decide) (by decide) (by decide)
    (by decide) (by omega) (by omega) htb rfl rfl
  rw [hstages]
  unfold runDecoder
  simp only [pairedSkips, runDecStages, d1, d2, d3, d4,
    Option.bind_eq_bind', Option.some_bind, List.nil_append, List.cons_append]

theorem bottleneck_eq (b h w tb seq : Nat) (hh : 1 ≤ h) (hw : 1 ≤ w)
    (htb : tb = b ∨ tb = 1) :
    runBottleneck 768 tb 1280 ⟨b, seq, 768⟩ ⟨b, 1280, h, w⟩ = some ⟨b, 1280, h, w⟩ := by
  simp only [runBottleneck,
    resBlock_eq 1280 1280 tb 1280 b 1280 h w rfl (by decide) (by decide) hh hw htb rfl,
    transformer_eq 8 160 768 b 1280 h w b seq (by norm_num) (by decide) hh hw rfl,
    Option.bind_eq_bind', Option.some_bind]

/-! ### Counting lemmas for the skip-connection stack -/

theorem runEncLayers_some_length (heads condDim tdim tb td : Nat) (cond : CShape) :
    ∀ (Ls : List LayerDesc) (x : TShape) (sk : List TShape) (r : TShape × List TShape),
      runEncLayers heads condDim tdim tb td cond Ls x sk = some r →
      r.2.length = sk.length + Ls.length := by
  intro Ls
  induction Ls with
  | nil =>
    intro x sk r h
    simp only [runEncLayers, Option.some.injEq] at h
    subst h
    simp
  | cons L Ls ih =>
    intro x sk r h
    simp only [runEncLayers, Option.bind_eq_bind'] at h
    cases hL : runLayer heads condDim tdim tb td cond L x with
    | none => rw [hL] at h; simp at h
    | some x1 =>
      rw [hL] at h
      simp only [Option.some_bind] at h
      have := ih x1 (x1 :: sk) r h
      simp only [List.length_cons] at this
      simp only [List.length_cons]
      omega

theorem runEncStage_some_length (heads condDim tdim tb td : Nat) (cond : CShape)
    (st : EncStage) (x : TShape) (sk : List TShape) (r : TShape × List TShape)
    (h : runEncStage heads condDim tdim tb td cond st x sk = some r) :
    r.2.length = sk.length + st.layers.length + (if st.hasDown then 1 else 0) := by
  unfold runEncStage at h
  cases hE : runEncLayers heads condDim tdim tb td cond st.layers x sk with
  | none => rw [hE] at h; simp at h
  | some p =>
    rw [hE] at h
    obtain ⟨x1, sk1⟩ := p
    have h1 : sk1.length = sk.length + st.layers.length := by
      simpa using runEncLayers_some_length heads condDim tdim tb td cond st.layers x sk
        (x1, sk1) hE
    simp only [Option.bind_eq_bind', Option.some_bind] at h
    cases hd : st.hasDown with
    | false =>
      rw [hd] at h
      simp only [Bool.false_eq_true, if_false] at h
      cases h
      simp only [Bool.false_eq_true, if_false]
      omega
    | true =>
      rw [hd] at h
      simp only [if_true] at h
      cases hc : conv2dShape st.downC st.downC 3 2 1 x1 with
      | none => rw [hc] at h; simp at h
      | some x2 =>
        rw [hc] at h
        simp only [Option.some_bind, Option.some.injEq] at h
        subst h
        simp only [List.length_cons, if_true]
        omega

theorem runEncStages_some_length (heads condDim tdim tb td : Nat) (cond : CShape) :
    ∀ (stages : List EncStage) (x : TShape) (sk : List TShape) (r : TShape × List TShape),
      runEncStages heads condDim tdim tb td cond stages x sk = some r →
      r.2.length = sk.length +
        ((stages.map (fun st => st.layers.length + if st.hasDown then 1 else 0)).sum) := by
  intro stages
  induction stages with
  | nil =>
    intro x sk r h
    simp only [runEncStages, Option.some.injEq] at h
    subst h
    simp
  | cons st rest ih =>
    intro x sk r h
    simp only [runEncStages, Option.bind_eq_bind'] at h
    cases hS : runEncStage heads condDim tdim tb td cond st x sk with
    | none => rw [hS] at h; simp at h
    | some p =>
      rw [hS] at h
      obtain ⟨x1, sk1⟩ := p
      have h1 : sk1.length = sk.length + st.layers.length + (if st.hasDown then 1 else 0) := by
        simpa using runEncStage_some_length heads condDim tdim tb td cond st x sk (x1, sk1) hS
      simp only [Option.some_bind] at h
      have h2 := ih x1 sk1 r h
      simp only [List.map_cons, List.sum_cons] at h2 ⊢
      omega

theorem runEncoder_pushes (inCh heads condDim tdim tb td : Nat) (cond : CShape)
    (stages : List EncStage) (x : TShape) (r : TShape × List TShape)
    (h : runEncoder inCh heads condDim tdim tb td cond stages x = some r) :
    r.2.length = encPushes stages := by
  unfold runEncoder at h
  cases hc : conv2dShape inCh 320 3 1 1 x with
  | none => rw [hc] at h; simp at h
  | some x0 =>
    rw [hc] at h
    simp only [Option.bind_eq_bind', Option.some_bind] at h
    have := runEncStages_some_length heads condDim tdim tb td cond stages x0 [x0] r h
    unfold encPushes
    simp only [List.length_singleton] at this
    omega

theorem encSum_eq :
    ∀ (ch : List Nat) (p : Nat), ch ≠ [] →
      ((mkEncoderStagesAux p ch).map
        (fun st => st.layers.length + if st.hasDown then 1 else 0)).sum =
      3 * ch.length - 1 := by
  intro ch
  induction ch with
  | nil => intro p h; exact absurd rfl h
  | cons m rest ih =>
    intro p _
    cases rest with
    | nil => simp [mkEncoderStagesAux]
    | cons m2 r2 =>
      have h2 := ih m (by simp)
      rw [show mkEncoderStagesAux p (m :: m2 :: r2) =
        (⟨[⟨320 * p, 320 * m, true⟩, ⟨320 * m, 320 * m, true⟩], true, 320 * m⟩ : EncStage) ::
          mkEncoderStagesAux m (m2 :: r2) from rfl]
      simp only [List.map_cons, List.sum_cons, List.length_cons, List.length_nil, if_true]
      simp only [List.length_cons] at h2
      omega

theorem encPushes_eq (ch : List Nat) (h : ch ≠ []) :
    encPushes (mkEncoderStages ch) = 3 * ch.length := by
  unfold encPushes mkEncoderStages
  rw [encSum_eq ch 1 h]
  have : 1 ≤ ch.length := List.length_pos.mpr h
  omega

theorem decPops_aux :
    ∀ (ch : List Nat) (a : Nat) (f : Bool),
      decPops (mkDecoderStagesAux a f ch) = 3 * ch.length := by
  intro ch
  induction ch with
  | nil => intro a f; simp [mkDecoderStagesAux, decPops]
  | cons m rest ih =>
    intro a f
    cases rest with
    | nil =>
      rw [show mkDecoderStagesAux a f [m] =
        [(⟨[⟨320 * a + 320 * m, 320 * m, !f⟩, ⟨320 * m + 320 * m, 320 * m, !f⟩,
          ⟨320 * m + 320, 320 * m, !f⟩], false, 320 * m⟩ : DecStage)] from rfl]
      simp [decPops]
    | cons m2 r2 =>
      have h2 := ih m false
      rw [show mkDecoderStagesAux a f (m :: m2 :: r2) =
        (⟨[⟨320 * a + 320 * m, 320 * m, !f⟩, ⟨320 * m + 320 * m, 320 * m, !f⟩,
          ⟨320 * m + 320 * m2, 320 * m, !f⟩],
          true, 320 * m⟩ : DecStage) :: mkDecoderStagesAux m false (m2 :: r2) from rfl]
      unfold decPops at h2 ⊢
      simp only [List.map_cons, List.sum_cons, List.length_cons, List.length_nil]
      simp only [List.length_cons] at h2
      omega

theorem decPops_eq (ch : List Nat) : decPops (mkDecoderStages ch) = 3 * ch.length := by
  unfold mkDecoderStages
  rw [decPops_aux ch.reverse 4 true]
  simp

theorem decStackUse_aux :
    ∀ (ch : List Nat) (a : Nat) (f : Bool),
      decStackUse (mkDecoderStagesAux a f ch) (3 * ch.length) = some 0 := by
  intro ch
  induction ch with
  | nil => intro a f; simp [mkDecoderStagesAux, decStackUse]
  | cons m rest ih =>
    intro a f
    cases rest with
    | nil =>
      rw [show mkDecoderStagesAux a f [m] =
        [(⟨[⟨320 * a + 320 * m, 320 * m, !f⟩, ⟨320 * m + 320 * m, 320 * m, !f⟩,
          ⟨320 * m + 320, 320 * m, !f⟩], false, 320 * m⟩ : DecStage)] from rfl]
      simp [decStackUse]
    | cons m2 r2 =>
      rw [show mkDecoderStagesAux a f (m :: m2 :: r2) =
        (⟨[⟨320 * a + 320 * m, 320 * m, !f⟩, ⟨320 * m + 320 * m, 320 * m, !f⟩,
          ⟨320 * m + 320 * m2, 320 * m, !f⟩],
          true, 320 * m⟩ : DecStage) :: mkDecoderStagesAux m false (m2 :: r2) from rfl]
      simp only [decStackUse, List.length_cons, List.length_nil]
      rw [if_neg (by omega), if_pos (by omega)]
      convert ih m false using 2

/-! ### Claim theorems -/

/-- C1: for every latent tensor of shape `[b, 4, h, w]` with `h` and `w`
positive and divisible by 8, every integer timestep batch paired with the
latent batch (`tb = b`, or a broadcastable singleton batch `tb = 1`), and
every conditioning sequence of the configured dimension 768, the top-level
UNet forward pass returns a tensor of exactly the input shape `[b, 4, h, w]`. -/
theorem C1_unet_forward_shape (b h w tb seq : Nat) (h8h : 8 ∣ h) (h8w : 8 ∣ w)
    (hh : 0 < h) (hw : 0 < w) (htb : tb = b ∨ tb = 1) :
    unetForward 4 4 8 768 ⟨b, 4, h, w⟩ tb ⟨b, seq, 768⟩ = some ⟨b, 4, h, w⟩ := by
  obtain ⟨m₁, rfl⟩ := h8h
  obtain ⟨m₂, rfl⟩ := h8w
  have hm1 : 1 ≤ m₁ := by omega
  have hm2 : 1 ≤ m₂ := by omega
  simp only [unetForward,
    encoder_default b m₁ m₂ tb seq hm1 hm2 htb,
    Option.bind_eq_bind', Option.some_bind]
  rw [bottleneck_eq b m₁ m₂ tb seq hm1 hm2 htb]
  simp only [Option.some_bind]
  rw [decoder_default b m₁ m₂ tb seq hm1 hm2 htb]
  simp only [Option.some_bind, runOutputHead,
    groupNorm_eq 32 320 b 320 (8 * m₁) (8 * m₂) rfl (by decide),
    conv3s1_eq 320 4 b 320 (8 * m₁) (8 * m₂) rfl (by omega) (by omega),
    Option.bind_eq_bind']

/-- Witness for C1 at a concrete input. -/
theorem C1_unet_forward_shape_witness :
    unetForward 4 4 8 768 ⟨1, 4, 8, 8⟩ 1 ⟨1, 77, 768⟩ = some ⟨1, 4, 8, 8⟩ :=
  C1_unet_forward_shape 1 8 8 1 77 ⟨1, rfl⟩ ⟨1, rfl⟩ (by decide) (by decide) (Or.inl rfl)

/-- C2 (amended): for every nonempty channel-multiplier schedule, the number
of tensors the encoder pushes onto the skip stack equals the number the
decoder pops (`3 * n` each), and the decoder stack discipline run on a stack
of exactly that size succeeds and consumes it entirely, so the decoder never
pops from an empty stack. -/
theorem C2_skip_stack_balance (ch : List Nat) (hne : ch ≠ []) :
    encPushes (mkEncoderStages ch) = decPops (mkDecoderStages ch) ∧
    decStackUse (mkDecoderStages ch) (encPushes (mkEncoderStages ch)) = some 0 := by
  constructor
  · rw [encPushes_eq ch hne, decPops_eq ch]
  · rw [encPushes_eq ch hne]
    have := decStackUse_aux ch.reverse 4 true
    simpa [mkDecoderStages] using this

/-- Counterexample to C2 as frozen: for the empty channel-multiplier schedule
(schedule length 0) the encoder still pushes the `conv_in` activation, so it
performs one push while the decoder performs zero pops. -/
theorem C2_counterexample :
    encPushes (mkEncoderStages []) = 1 ∧ decPops (mkDecoderStages []) = 0 ∧
    encPushes (mkEncoderStages []) ≠ decPops (mkDecoderStages []) := by
  refine ⟨rfl, rfl, ?_⟩
  decide

/-- Witness for C2 at the default schedule. -/
theorem C2_skip_stack_balance_witness :
    encPushes (mkEncoderStages [1, 2, 4, 4]) = decPops (mkDecoderStages [1, 2, 4, 4]) ∧
    decStackUse (mkDecoderStages [1, 2, 4, 4]) (encPushes (mkEncoderStages [1, 2, 4, 4])) =
      some 0 :=
  C2_skip_stack_balance [1, 2, 4, 4] (by decide)

/-- C3: on the paired skip stack of the default configuration the decoder
performs nearest-neighbour doubling plus convolution after each of the first
three stages and nothing (identity) after the innermost (final) stage; and
the decision is dynamic: feeding the same two-stage decoder a stack whose
next remaining skip matches the stage input spatial size selects the
convolution-only branch (`upscale=False`), while a stack whose next skip has
a different spatial size selects the doubling branch. -/
theorem C3_decoder_upsample_rule :
    (∀ b m₁ m₂ tb seq, 1 ≤ m₁ → 1 ≤ m₂ → (tb = b ∨ tb = 1) →
      runDecoder 8 768 1280 tb 1280 ⟨b, seq, 768⟩ (mkDecoderStages [1, 2, 4, 4])
        ⟨b, 1280, m₁, m₂⟩ (pairedSkips b m₁ m₂) =
        some (⟨b, 320, 8 * m₁, 8 * m₂⟩, [],
          [UpAction.double, UpAction.double, UpAction.double, UpAction.ident])) ∧
    runDecoder 8 768 1280 1 1280 ⟨1, 1, 768⟩ (mkDecoderStages [1, 1]) ⟨1, 1280, 4, 4⟩
      (List.replicate 6 ⟨1, 320, 4, 4⟩) =
      some (⟨1, 320, 4, 4⟩, [], [UpAction.convOnly, UpAction.ident]) ∧
    runDecoder 8 768 1280 1 1280 ⟨1, 1, 768⟩ (mkDecoderStages [1, 1]) ⟨1, 1280, 4, 4⟩
      (List.replicate 3 ⟨1, 320, 4, 4⟩ ++ List.replicate 3 ⟨1, 320, 8, 8⟩) =
      some (⟨1, 320, 8, 8⟩, [], [UpAction.double, UpAction.ident]) := by
  refine ⟨fun b m₁ m₂ tb seq hm1 hm2 htb => decoder_default b m₁ m₂ tb seq hm1 hm2 htb,
    ?_, ?_⟩ <;> decide

/-- Witness for C3 at a concrete paired input. -/
theorem C3_decoder_upsample_rule_witness :
    runDecoder 8 768 1280 1 1280 ⟨1, 77, 768⟩ (mkDecoderStages [1, 2, 4, 4])
      ⟨1, 1280, 1, 1⟩ (pairedSkips 1 1 1) =
      some (⟨1, 320, 8, 8⟩, [],
        [UpAction.double, UpAction.double, UpAction.double, UpAction.ident]) :=
  C3_decoder_upsample_rule.1 1 1 1 1 77 (by decide) (by decide) (Or.inl rfl)

/-- C4: every successful encoder pass pushes exactly `encPushes` tensors (one
for `conv_in`, one per layer of every stage, one per real downsample and none
for the identity downsample of the last stage); for the default 4-stage
schedule this count is 12, and the paired run on `[b, 4, 8m₁, 8m₂]` pushes,
in order, the `conv_in` output, the two layer outputs and the downsample
output of each downsampling stage, and the two layer outputs of the last
stage. -/
theorem C4_encoder_push_pattern :
    (∀ inCh heads condDim tdim tb td cond stages x r,
      runEncoder inCh heads condDim tdim tb td cond stages x = some r →
      r.2.length = encPushes stages) ∧
    encPushes (mkEncoderStages [1, 2, 4, 4]) = 12 ∧
    (∀ b m₁ m₂ tb seq, 1 ≤ m₁ → 1 ≤ m₂ → (tb = b ∨ tb = 1) →
      runEncoder 4 8 768 1280 tb 1280 ⟨b, seq, 768⟩ (mkEncoderStages [1, 2, 4, 4])
        ⟨b, 4, 8 * m₁, 8 * m₂⟩ = some (⟨b, 1280, m₁, m₂⟩, pairedSkips b m₁ m₂) ∧
      (pairedSkips b m₁ m₂).reverse =
        [⟨b, 320, 8 * m₁, 8 * m₂⟩, ⟨b, 320, 8 * m₁, 8 * m₂⟩, ⟨b, 320, 8 * m₁, 8 * m₂⟩,
         ⟨b, 320, 4 * m₁, 4 * m₂⟩, ⟨b, 640, 4 * m₁, 4 * m₂⟩, ⟨b, 640, 4 * m₁, 4 * m₂⟩,
         ⟨b, 640, 2 * m₁, 2 * m₂⟩, ⟨b, 1280, 2 * m₁, 2 * m₂⟩, ⟨b, 1280, 2 * m₁, 2 * m₂⟩,
         ⟨b, 1280, m₁, m₂⟩, ⟨b, 1280, m₁, m₂⟩, ⟨b, 1280, m₁, m₂⟩] ∧
      (pairedSkips b m₁ m₂).length = 12) := by
  refine ⟨fun inCh heads condDim tdim tb td cond stages x r h =>
      runEncoder_pushes inCh heads condDim tdim tb td cond stages x r h,
    by decide,
    fun b m₁ m₂ tb seq hm1 hm2 htb =>
      ⟨encoder_default b m₁ m₂ tb seq hm1 hm2 htb, by simp [pairedSkips], by simp [pairedSkips]⟩⟩

/-- Witness for C4 at a concrete input. -/
theorem C4_encoder_push_pattern_witness :
    runEncoder 4 8 768 1280 1 1280 ⟨1, 77, 768⟩ (mkEncoderStages [1, 2, 4, 4])
      ⟨1, 4, 8, 8⟩ = some (⟨1, 1280, 1, 1⟩, pairedSkips 1 1 1) :=
  (C4_encoder_push_pattern.2.2 1 1 1 1 77 (by decide) (by decide) (Or.inl rfl)).1

/-- C5: the gated feed-forward unit `GeGELU(dim, 4*dim)` inside
`UNet_AttentionBlock.ffn` projects its input through a single linear map of
output width `2 * (4*dim)`, splits the projection into a value half and a
gate half of width `4*dim` each, applies the gating nonlinearity to the gate
half only, multiplies the halves elementwise (giving a `4*dim`-wide vector),
and the following `Linear(4*dim, dim)` projects the product back to the
original width. -/
theorem C5_gated_ffn (dim : Nat) (g : ℚ → ℚ) (W1 : List (List ℚ)) (b1 : List ℚ)
    (W2 : List (List ℚ)) (b2 : List ℚ) (x : List ℚ)
    (hW1 : W1.length = 2 * (4 * dim)) (hb1 : b1.length = 2 * (4 * dim))
    (hW2 : W2.length = dim) (hb2 : b2.length = dim) :
    geGELUForward g W1 b1 x =
      List.zipWith (· * ·) ((linearQ W1 b1 x).take (4 * dim))
        (((linearQ W1 b1 x).drop (4 * dim)).map g) ∧
    ((linearQ W1 b1 x).take (4 * dim)).length = 4 * dim ∧
    ((linearQ W1 b1 x).drop (4 * dim)).length = 4 * dim ∧
    (geGELUForward g W1 b1 x).length = 4 * dim ∧
    (geGELUFfn g W1 b1 W2 b2 x).length = dim := by
  have hlin : (linearQ W1 b1 x).length = 2 * (4 * dim) := by
    simp only [linearQ, List.length_zipWith, hW1, hb1]
    omega
  have hsplit : ((linearQ W1 b1 x).length + 1) / 2 = 4 * dim := by
    rw [hlin]; omega
  have hmain : geGELUForward g W1 b1 x =
      List.zipWith (· * ·) ((linearQ W1 b1 x).take (4 * dim))
        (((linearQ W1 b1 x).drop (4 * dim)).map g) := by
    simp only [geGELUForward, chunk2, hsplit]
  have htake : ((linearQ W1 b1 x).take (4 * dim)).length = 4 * dim := by
    simp only [List.length_take, hlin]
    omega
  have hdrop : ((linearQ W1 b1 x).drop (4 * dim)).length = 4 * dim := by
    simp only [List.length_drop, hlin]
    omega
  refine ⟨hmain, htake, hdrop, ?_, ?_⟩
  · rw [hmain]
    simp only [List.length_zipWith, htake, List.length_map, hdrop]
    omega
  · simp only [geGELUFfn, linearQ, List.length_zipWith, hW2, hb2]
    omega

/-- Witness for C5 at a concrete configuration (`dim = 1`). -/
theorem C5_gated_ffn_witness :
    (geGELUForward (fun v => v) (List.replicate 8 [(1 : ℚ)]) (List.replicate 8 (0 : ℚ))
      [(2 : ℚ)]).length = 4 * 1 :=
  (C5_gated_ffn 1 (fun v => v) (List.replicate 8 [(1 : ℚ)]) (List.replicate 8 (0 : ℚ))
    [[(1 : ℚ), 1, 1, 1]] [(0 : ℚ)] [(2 : ℚ)]
    (by decide) (by decide) (by decide) (by decide)).2.2.2.1

/-- C6: for every positive head count, constructing `UNet_AttentionBlock`
raises the configuration `ValueError` exactly when the head count does not
evenly divide the embedding width, and succeeds with
`head_dim = embedding_dim // num_heads` when it does; the check runs in
`__init__`, before any forward computation. -/
theorem C6_attention_head_divisibility (H dim : Nat) (hH : 0 < H) :
    (dim % H = 0 → unetAttentionBlockInit H dim = Except.ok (dim / H)) ∧
    (dim % H ≠ 0 → unetAttentionBlockInit H dim =
      Except.error "Number of heads must be divisible by Embedding Dimension") := by
  have hH0 : ¬ H = 0 := by omega
  constructor
  · intro h
    simp [unetAttentionBlockInit, hH0, h]
  · intro h
    simp [unetAttentionBlockInit, hH0, h]

/-- Witness for C6 on both branches. -/
theorem C6_attention_head_divisibility_witness :
    unetAttentionBlockInit 8 320 = Except.ok 40 ∧
    unetAttentionBlockInit 8 321 =
      Except.error "Number of heads must be divisible by Embedding Dimension" :=
  ⟨(C6_attention_head_divisibility 8 320 (by decide)).1 (by decide),
   (C6_attention_head_divisibility 8 321 (by decide)).2 (by decide)⟩

/-- C7: the pre-projection sinusoidal time embedding has `2 * (tdim / 2)`
entries; entry `i < half` is `cos(t * freq_i)` and entry `half + i` is
`sin(t * freq_i)` with `freq_i = 10000 ^ (-i / half)`; at timestep 0 every
cosine component is 1 and every sine component is 0. -/
theorem C7_time_embedding (tdim : Nat) (t : ℤ) (i : Nat) (hi : i < tdim / 2) :
    (timeEmbeddingRow tdim t).length = 2 * (tdim / 2) ∧
    (timeEmbeddingRow tdim t).get? i = some (Real.cos ((t : ℝ) * timeFreq tdim i)) ∧
    (timeEmbeddingRow tdim t).get? (tdim / 2 + i) =
      some (Real.sin ((t : ℝ) * timeFreq tdim i)) ∧
    timeFreq tdim i = (10000 : ℝ) ^ (-(i : ℝ) / ((tdim / 2 : Nat) : ℝ)) ∧
    (timeEmbeddingRow tdim 0).get? i = some 1 ∧
    (timeEmbeddingRow tdim 0).get? (tdim / 2 + i) = some 0 := by
  have hcos : ∀ (s : ℤ), (timeEmbeddingRow tdim s).get? i =
      some (Real.cos ((s : ℝ) * timeFreq tdim i)) := by
    intro s
    unfold timeEmbeddingRow
    rw [List.get?_append (by simpa using hi)]
    rw [List.get?_map, List.get?_range hi]
    rfl
  have hsin : ∀ (s : ℤ), (timeEmbeddingRow tdim s).get? (tdim / 2 + i) =
      some (Real.sin ((s : ℝ) * timeFreq tdim i)) := by
    intro s
    unfold timeEmbeddingRow
    rw [List.get?_append_right (by simp)]
    rw [show tdim / 2 + i -
      ((List.range (tdim / 2)).map fun j => Real.cos ((s : ℝ) * timeFreq tdim j)).length = i
      from by simp]
    rw [List.get?_map, List.get?_range hi]
    rfl
  refine ⟨?_, hcos t, hsin t, rfl, ?_, ?_⟩
  · unfold timeEmbeddingRow
    simp only [List.length_append, List.length_map, List.length_range]
    omega
  · have h0 := hcos 0
    simpa using h0
  · have h0 := hsin 0
    simpa using h0

/-- Witness for C7 at `tdim = 2`, `i = 0`. -/
theorem C7_time_embedding_witness :
    (timeEmbeddingRow 2 3).length = 2 * (2 / 2) ∧
    (timeEmbeddingRow 2 0).get? 0 = some 1 :=
  ⟨(C7_time_embedding 2 3 0 (by decide)).1,
   (C7_time_embedding 2 3 0 (by decide)).2.2.2.2.1⟩

/-- C8: both structural toggles are pure configuration mutations — the
gradient-checkpointing toggle and the accelerated-attention toggle are
idempotent, they set the corresponding flag on every attention block /
attention unit under the encoder, bottleneck and decoder, and neither flag
changes the forward computation (checkpointed execution computes the same
function, and the accelerated attention path is numerically equivalent to
the reference path). -/
theorem C8_toggles_idempotent_and_transparent :
    (∀ (s : UNetToggles) (e : Bool),
      gradientCheckpointingEnabled (gradientCheckpointingEnabled s e) e =
        gradientCheckpointingEnabled s e) ∧
    (∀ s : UNetToggles, enableFlashAttn (enableFlashAttn s) = enableFlashAttn s) ∧
    (∀ (s : UNetToggles) (e : Bool),
      (∀ fl ∈ (gradientCheckpointingEnabled s e).encGC, fl = e) ∧
      (∀ fl ∈ (gradientCheckpointingEnabled s e).botGC, fl = e) ∧
      (∀ fl ∈ (gradientCheckpointingEnabled s e).decGC, fl = e)) ∧
    (∀ s : UNetToggles,
      (∀ fl ∈ (enableFlashAttn s).encFA, fl = true) ∧
      (∀ fl ∈ (enableFlashAttn s).botFA, fl = true) ∧
      (∀ fl ∈ (enableFlashAttn s).decFA, fl = true)) ∧
    (∀ (T C : Type) (gc : Bool) (n1 a1 : T → T) (n2 : T → T) (a2 : T → C → T)
      (n3 ffn : T → T) (add : T → T → T) (x : T) (cond : C),
      attnBlockForward gc n1 a1 n2 a2 n3 ffn add x cond =
        attnBlockForward false n1 a1 n2 a2 n3 ffn add x cond) ∧
    (∀ (T : Type) (fl : Bool) (reference : T → T) (x : T),
      selfAttentionForward fl reference x = selfAttentionForward false reference x) := by
  refine ⟨?_, ?_, ?_, ?_, ?_, ?_⟩
  · intro s e
    simp [gradientCheckpointingEnabled, List.map_map, Function.comp]
  · intro s
    simp [enableFlashAttn, List.map_map, Function.comp]
  · intro s e
    refine ⟨?_, ?_, ?_⟩ <;> simp [gradientCheckpointingEnabled]
  · intro s
    refine ⟨?_, ?_, ?_⟩ <;> simp [enableFlashAttn]
  · intro T C gc n1 a1 n2 a2 n3 ffn add x cond
    cases gc <;> rfl
  · intro T fl reference x
    cases fl <;> rfl

/-- C9: with `clamp=False`, `scale_img` returns the very tensor object it was
given (the same heap reference), that object now holds the rescaled values
(so the input no longer holds its original values whenever the rescale is not
the identity on them), and no other heap object is touched. -/
theorem C9_scale_img_in_place (heap : List (List ℚ)) (r : Nat)
    (oldMin oldMax newMin newMax : ℚ) (hr : r < heap.length) :
    (scaleImg heap r oldMin oldMax newMin newMax false).2 = r ∧
    (scaleImg heap r oldMin oldMax newMin newMax false).1.getD r [] =
      (heap.getD r []).map (rescaleVal oldMin oldMax newMin newMax) ∧
    (scaleImg heap r oldMin oldMax newMin newMax false).1.length = heap.length ∧
    ∀ r2, r2 ≠ r →
      (scaleImg heap r oldMin oldMax newMin newMax false).1.getD r2 [] =
        heap.getD r2 [] := by
  refine ⟨rfl, ?_, ?_, ?_⟩
  · show (heap.set r ((heap.getD r []).map
      (rescaleVal oldMin oldMax newMin newMax))).getD r [] = _
    simp [List.getD, List.getElem?_set_eq_of_lt _ hr]
  · show (heap.set r _).length = heap.length
    simp
  · intro r2 hne
    show (heap.set r ((heap.getD r []).map
      (rescaleVal oldMin oldMax newMin newMax))).getD r2 [] = _
    simp [List.getD, List.getElem?_set_ne (Ne.symm hne)]

/-- Witness for C9 at a concrete heap. -/
theorem C9_scale_img_in_place_witness :
    (scaleImg [[(0 : ℚ), 255]] 0 0 255 (-1) 1 false).2 = 0 ∧
    (scaleImg [[(0 : ℚ), 255]] 0 0 255 (-1) 1 false).1.getD 0 [] =
      ([(0 : ℚ), 255]).map (rescaleVal 0 255 (-1) 1) :=
  ⟨(C9_scale_img_in_place [[(0 : ℚ), 255]] 0 0 255 (-1) 1 (by decide)).1,
   (C9_scale_img_in_place [[(0 : ℚ), 255]] 0 0 255 (-1) 1 (by decide)).2.1⟩

/-- C10: both dataloaders returned by `create_dataloaders` wrap the same
randomly drawn training subset — the first `int(train_test_split * n)`
entries of the random permutation — with `shuffle=True` and `shuffle=False`
respectively; the held-out test subset of size `n - train_size` is created
but wrapped by neither returned loader. -/
theorem C10_dataloaders_wrap_train (perm : List Nat) (split : ℚ) (bs nw : Nat)
    (h0 : 0 ≤ split) (h1 : split ≤ 1) :
    createDataloaders perm split bs nw =
      some (⟨perm.take (trainSizeOf split perm.length), bs, true, nw⟩,
            ⟨perm.take (trainSizeOf split perm.length), bs, false, nw⟩) ∧
    (perm.take (trainSizeOf split perm.length)).length = trainSizeOf split perm.length ∧
    (perm.drop (trainSizeOf split perm.length)).length =
      perm.length - trainSizeOf split perm.length := by
  have hmul0 : (0 : ℚ) ≤ split * (perm.length : ℚ) :=
    mul_nonneg h0 (Nat.cast_nonneg _)
  have hts0 : 0 ≤ Int.floor (split * (perm.length : ℚ)) := Int.floor_nonneg.mpr hmul0
  have hmul1 : split * (perm.length : ℚ) ≤ ((perm.length : Nat) : ℚ) := by
    calc split * (perm.length : ℚ) ≤ 1 * (perm.length : ℚ) :=
          mul_le_mul_of_nonneg_right h1 (Nat.cast_nonneg _)
      _ = ((perm.length : Nat) : ℚ) := one_mul _
  have htsn : (Int.floor (split * (perm.length : ℚ))).toNat ≤ perm.length := by
    rw [Int.toNat_le]
    calc Int.floor (split * (perm.length : ℚ)) ≤ Int.floor ((perm.length : ℚ)) :=
          Int.floor_le_floor hmul1
      _ = (perm.length : Int) := Int.floor_natCast _
  refine ⟨?_, ?_, ?_⟩
  · unfold createDataloaders
    rw [if_pos ⟨hts0, htsn⟩]
    rfl
  · simp only [List.length_take]
    exact Nat.min_eq_left htsn
  · exact List.length_drop _ _

/-- Witness for C10 at a concrete dataset and split. -/
theorem C10_dataloaders_wrap_train_witness :
    createDataloaders [10, 20, 30, 40] (1 / 2) 2 0 =
      some (⟨[10, 20, 30, 40].take (trainSizeOf (1 / 2) 4), 2, true, 0⟩,
            ⟨[10, 20, 30, 40].take (trainSizeOf (1 / 2) 4), 2, false, 0⟩) :=
  (C10_dataloaders_wrap_train [10, 20, 30, 40] (1 / 2) 2 0
    (by norm_num) (by norm_num)).1
